import Mathlib

/-
Formal model of the pi_store worker pool (src/pool.rs).

The file embeds, as executable Lean definitions:
  - the key-value record type TabKV and the per-worker state
    (transaction slot, iterator slot, table handle) of the worker loop;
  - one handler per LmdbMessage variant, translated arm by arm from the
    Rust match in the worker thread, with callback invocations collected
    into an explicit output list and panics (unwrap on None) made explicit;
  - the ThreadPool accounting (new, start_pool, pop, push), with the usize
    counter arithmetic taken modulo 2^64 as in the release build;
  - the external LMDB engine as a black box: an EngineModel records which
    keys fail with an engine-level error, whether begin_rw_txn fails, and
    whether commit fails; a transaction is modelled as the association list
    of bindings it currently sees, and a cursor as the list of remaining
    entries in key order.
-/

namespace PiStore

/-- Byte buffer (the Bin type of pi_db). -/
abbrev Bin := List Nat

/-- The key-value record exchanged with the store (pi_db TabKV):
table identifiers, key, positional index, optional value. -/
structure TabKV where
  ware : String
  tab : String
  key : Bin
  index : Nat
  value : Option Bin
deriving DecidableEq

/-- Lookup in an association list of bindings. -/
def mapGet : List (Bin × Bin) → Bin → Option Bin
  | [], _ => none
  | (k, v) :: rest, key => if key = k then some v else mapGet rest key

/-- Upsert into an association list of bindings. -/
def mapPut : List (Bin × Bin) → Bin → Bin → List (Bin × Bin)
  | [], key, v => [(key, v)]
  | (k, w) :: rest, key, v =>
    if key = k then (key, v) :: rest else (k, w) :: mapPut rest key v

/-- Delete a key from an association list of bindings. -/
def mapDel : List (Bin × Bin) → Bin → List (Bin × Bin)
  | [], _ => []
  | (k, w) :: rest, key =>
    if key = k then mapDel rest key else (k, w) :: mapDel rest key

/-- Black-box model of the native LMDB engine: which operations fail with an
engine-level error (other than not-found), and whether begin/commit fail. -/
structure EngineModel where
  getErr : Bin → Option String
  putErr : Bin → Option String
  delErr : Bin → Option String
  beginFails : Bool
  commitErr : Option String
  statErr : Option String

/-- Result of txn.get: found value, Error::NotFound, or another engine error. -/
inductive GetResult where
  | found (v : Bin)
  | notFound
  | err (e : String)
deriving DecidableEq

/-- txn.get on the transaction view. -/
def txnGet (em : EngineModel) (t : List (Bin × Bin)) (k : Bin) : GetResult :=
  match em.getErr k with
  | some e => .err e
  | none =>
    match mapGet t k with
    | some v => .found v
    | none => .notFound

/-- txn.put on the transaction view. -/
def txnPut (em : EngineModel) (t : List (Bin × Bin)) (k v : Bin) :
    Except String (List (Bin × Bin)) :=
  match em.putErr k with
  | some e => .error e
  | none => .ok (mapPut t k v)

/-- Result of txn.del: success, Error::NotFound (key absent), or another error. -/
inductive DelResult where
  | delOk (t : List (Bin × Bin))
  | delNotFound
  | delErr (e : String)
deriving DecidableEq

/-- txn.del on the transaction view; an absent key yields Error::NotFound. -/
def txnDel (em : EngineModel) (t : List (Bin × Bin)) (k : Bin) : DelResult :=
  match em.delErr k with
  | some e => .delErr e
  | none => if (mapGet t k).isSome then .delOk (mapDel t k) else .delNotFound

/-- Lexicographic order on byte buffers, the key order of the engine cursor. -/
def binLe : Bin → Bin → Bool
  | [], _ => true
  | _ :: _, [] => false
  | x :: xs, y :: ys => if x < y then true else if y < x then false else binLe xs ys

/-- Insert an entry into a key-sorted entry list. -/
def insSorted (p : Bin × Bin) : List (Bin × Bin) → List (Bin × Bin)
  | [] => [p]
  | q :: qs => if binLe p.1 q.1 then p :: q :: qs else q :: insSorted p qs

/-- Entries of the transaction view in cursor (key) order. -/
def sortEntries : List (Bin × Bin) → List (Bin × Bin)
  | [] => []
  | p :: ps => insSorted p (sortEntries ps)

/-- cursor.iter_items_with_direction: all entries, ascending or descending. -/
def iterItemsWithDirection (t : List (Bin × Bin)) (descending : Bool) :
    List (Bin × Bin) :=
  if descending then (sortEntries t).reverse else sortEntries t

/-- cursor.iter_from_with_direction: entries from a start key, in direction. -/
def iterFromWithDirection (t : List (Bin × Bin)) (k : Bin) (descending : Bool) :
    List (Bin × Bin) :=
  if descending then ((sortEntries t).filter (fun q => binLe q.1 k)).reverse
  else (sortEntries t).filter (fun q => binLe k q.1)

/-- The iterator built by CreateItemIter/CreateKeyIter from the fresh
transaction view: positioned at the supplied key if any, else whole table. -/
def mkIter (t : List (Bin × Bin)) (descending : Bool) (key : Option Bin) :
    List (Bin × Bin) :=
  match key with
  | some k => iterFromWithDirection t k descending
  | none => iterItemsWithDirection t descending

/-- Per-worker mutable state of the worker loop: thread_local_txn,
thread_local_iter, and the table handle db. -/
structure WorkerState where
  txn : Option (List (Bin × Bin))
  iter : Option (List (Bin × Bin))
  db : Option String
deriving DecidableEq

/-- The state a worker thread starts in: all three slots empty. -/
def WorkerState.init : WorkerState := ⟨none, none, none⟩

/-- One observable answer sent by the worker: an acknowledgement on a
one-shot channel, or a callback invocation with its payload. -/
inductive CbCall where
  | ack
  | queryOk (vs : List TabKV)
  | queryErr (e : String)
  | itemOk (v : Option (Bin × Bin))
  | itemErr (e : String)
  | keyOk (v : Option Bin)
  | keyErr (e : String)
  | txOk
  | txErr (e : String)
  | sizeOk (n : Nat)
  | sizeErr (e : String)
deriving DecidableEq

/-- The message protocol of the worker (LmdbMessage), with the payloads the
handlers actually inspect; result channels become the CbCall output list. -/
inductive LmdbMessage where
  | CreateDb (name : String)
  | Query (keys : List TabKV)
  | NextItem
  | NextKey
  | CreateItemIter (descending : Bool) (key : Option Bin)
  | CreateKeyIter (descending : Bool) (key : Option Bin)
  | Modify (keys : List TabKV)
  | Commit
  | Rollback
  | TableSize
  | NoOp
deriving DecidableEq

/-- Committed contents of the store environment. -/
abbrev Env := List (Bin × Bin)

/-- Outcome of handling one message: new worker state, new committed store,
and the callback invocations in order; or a worker-thread panic
(an unwrap on a None option). -/
inductive StepResult where
  | ok (s : WorkerState) (env : Env) (out : List CbCall)
  | panicked
deriving DecidableEq

/-- Lines 82-84 and 181-183 of pool.rs: keep the open transaction, else
begin_rw_txn().ok() — none when the engine refuses to begin. -/
def beginOrKeep (em : EngineModel) (txn : Option (List (Bin × Bin))) (env : Env) :
    Option (List (Bin × Bin)) :=
  match txn with
  | some t => some t
  | none => if em.beginFails then none else some env

/-- The for-loop of the Query arm: accumulate one record per key, attaching
the value on hit and no value on not-found; stop at the first other engine
error with the formatted message. -/
def queryLoop (em : EngineModel) (t : List (Bin × Bin)) (acc : List TabKV) :
    List TabKV → List TabKV × Option String
  | [] => (acc, none)
  | kv :: rest =>
    match txnGet em t kv.key with
    | .found v => queryLoop em t (acc ++ [{ kv with value := some v }]) rest
    | .notFound => queryLoop em t (acc ++ [{ kv with value := none }]) rest
    | .err e => (acc, some ("lmdb internal error: " ++ e))

/-- The record the Query arm produces for one key when no engine error
occurs: the value on hit, no value on miss. -/
def queryResult (t : List (Bin × Bin)) (kv : TabKV) : TabKV :=
  { kv with value := mapGet t kv.key }

/-- First engine-level get error among the keys of a Query batch,
already formatted as the worker formats it. -/
def firstQueryErr (em : EngineModel) : List TabKV → Option String
  | [] => none
  | kv :: rest =>
    match em.getErr kv.key with
    | some e => some ("lmdb internal error: " ++ e)
    | none => firstQueryErr em rest

/-- The Query arm (pool.rs lines 79-118): lazily begin a transaction, TAKE it
out of the slot, run the key loop, emit the error callback on the first
engine error, then unconditionally emit the result callback.
Panics when the taken transaction is None, or when the table handle is None
and the batch is nonempty. -/
def handleQuery (em : EngineModel) (s : WorkerState) (env : Env)
    (keys : List TabKV) : StepResult :=
  match beginOrKeep em s.txn env with
  | none => .panicked
  | some t =>
    match s.db with
    | none =>
      if keys.isEmpty then .ok { s with txn := none } env [CbCall.queryOk []]
      else .panicked
    | some _ =>
      match queryLoop em t [] keys with
      | (values, none) => .ok { s with txn := none } env [CbCall.queryOk values]
      | (values, some e) =>
        .ok { s with txn := none } env [CbCall.queryErr e, CbCall.queryOk values]

/-- The for-loop of the Modify arm: upsert records with a value, delete
records without one (absence is success), report each other engine error
through the callback and keep going. Returns the updated transaction view
and the emitted error callbacks in order. -/
def modifyLoop (em : EngineModel) (t : List (Bin × Bin)) :
    List TabKV → List (Bin × Bin) × List CbCall
  | [] => (t, [])
  | kv :: rest =>
    match kv.value with
    | some v =>
      match txnPut em t kv.key v with
      | .ok t2 => modifyLoop em t2 rest
      | .error e =>
        let r := modifyLoop em t rest
        (r.1, CbCall.txErr ("insert data error: " ++ e) :: r.2)
    | none =>
      match txnDel em t kv.key with
      | .delOk t2 => modifyLoop em t2 rest
      | .delNotFound => modifyLoop em t rest
      | .delErr e =>
        let r := modifyLoop em t rest
        (r.1, CbCall.txErr ("delete data error: " ++ e) :: r.2)

/-- Does this record hit an engine-level error in the Modify loop? -/
def recordFails (em : EngineModel) (kv : TabKV) : Bool :=
  match kv.value with
  | some _ => (em.putErr kv.key).isSome
  | none => (em.delErr kv.key).isSome

/-- The error callback, if any, that one Modify record emits. -/
def errOf (em : EngineModel) (kv : TabKV) : Option CbCall :=
  match kv.value with
  | some _ => (em.putErr kv.key).map (fun e => CbCall.txErr ("insert data error: " ++ e))
  | none => (em.delErr kv.key).map (fun e => CbCall.txErr ("delete data error: " ++ e))

/-- Net effect of a Modify batch on the transaction view: upsert records
with a value, delete records without one. -/
def specApply : List (Bin × Bin) → List TabKV → List (Bin × Bin)
  | t, [] => t
  | t, kv :: rest =>
    specApply (match kv.value with
      | some v => mapPut t kv.key v
      | none => mapDel t kv.key) rest

/-- The Modify arm (pool.rs lines 180-213): lazily begin a transaction, keep
it in the slot (as_mut), run the record loop, then unconditionally emit the
success callback. Panics when the transaction is None after the lazy begin,
or when the table handle is None and the batch is nonempty. -/
def handleModify (em : EngineModel) (s : WorkerState) (env : Env)
    (keys : List TabKV) : StepResult :=
  match beginOrKeep em s.txn env with
  | none => .panicked
  | some t =>
    match s.db with
    | none =>
      if keys.isEmpty then .ok { s with txn := some t } env [CbCall.txOk]
      else .panicked
    | some _ =>
      let r := modifyLoop em t keys
      .ok { s with txn := some r.1 } env (r.2 ++ [CbCall.txOk])

/-- The CreateItemIter and CreateKeyIter arms (pool.rs lines 120-136 and
152-167, which are identical): only when the transaction slot is empty,
begin a transaction, open a cursor on the table handle (panicking if either
is unavailable) and install the iterator; in every non-panicking case send
the acknowledgement. -/
def handleCreateIter (em : EngineModel) (s : WorkerState) (env : Env)
    (descending : Bool) (key : Option Bin) : StepResult :=
  match s.txn with
  | some _ => .ok s env [CbCall.ack]
  | none =>
    if em.beginFails then .panicked
    else
      match s.db with
      | none => .panicked
      | some _ =>
        .ok { s with txn := some env, iter := some (mkIter env descending key) }
          env [CbCall.ack]

/-- The NextItem arm (pool.rs lines 138-150): advance the iterator, yielding
the next pair or the end-of-sequence signal; error if none was created. -/
def handleNextItem (s : WorkerState) (env : Env) : StepResult :=
  match s.iter with
  | none => .ok s env [CbCall.itemErr "Iterator not initialized"]
  | some [] => .ok { s with iter := some [] } env [CbCall.itemOk none]
  | some (p :: rest) => .ok { s with iter := some rest } env [CbCall.itemOk (some p)]

/-- The NextKey arm (pool.rs lines 169-178): as NextItem, keys only. -/
def handleNextKey (s : WorkerState) (env : Env) : StepResult :=
  match s.iter with
  | none => .ok s env [CbCall.keyErr "Iterator not initialized"]
  | some [] => .ok { s with iter := some [] } env [CbCall.keyOk none]
  | some (p :: rest) => .ok { s with iter := some rest } env [CbCall.keyOk (some p.1)]

/-- The Commit arm (pool.rs lines 215-229): take the transaction if any and
commit it, making its view the committed store, or report the formatted
commit failure; with no open transaction report success trivially. -/
def handleCommit (em : EngineModel) (s : WorkerState) (env : Env) : StepResult :=
  match s.txn with
  | none => .ok s env [CbCall.txOk]
  | some t =>
    match em.commitErr with
    | none => .ok { s with txn := none } t [CbCall.txOk]
    | some e =>
      .ok { s with txn := none } env [CbCall.txErr ("commit failed with error: " ++ e)]

/-- The Rollback arm (pool.rs lines 231-238): take and abort the transaction
if any; report success either way. -/
def handleRollback (s : WorkerState) (env : Env) : StepResult :=
  match s.txn with
  | none => .ok s env [CbCall.txOk]
  | some _ => .ok { s with txn := none } env [CbCall.txOk]

/-- One iteration of the worker loop: dispatch on the received message. -/
def step (em : EngineModel) (s : WorkerState) (env : Env) : LmdbMessage → StepResult
  | .NoOp => .ok s env [CbCall.txOk]
  | .CreateDb name => .ok { s with db := some name } env [CbCall.ack]
  | .Query keys => handleQuery em s env keys
  | .CreateItemIter d k => handleCreateIter em s env d k
  | .NextItem => handleNextItem s env
  | .CreateKeyIter d k => handleCreateIter em s env d k
  | .NextKey => handleNextKey s env
  | .Modify keys => handleModify em s env keys
  | .Commit => handleCommit em s env
  | .Rollback => handleRollback s env
  | .TableSize =>
    match em.statErr with
    | none => .ok s env [CbCall.sizeOk env.length]
    | some e => .ok s env [CbCall.sizeErr e]

/-- Run the worker loop over a message sequence, collecting every callback
invocation in order; a panic ends the thread. -/
def run (em : EngineModel) (s : WorkerState) (env : Env) :
    List LmdbMessage → StepResult
  | [] => .ok s env []
  | m :: ms =>
    match step em s env m with
    | .panicked => .panicked
    | .ok s2 env2 out =>
      match run em s2 env2 ms with
      | .panicked => .panicked
      | .ok s3 env3 outs => .ok s3 env3 (out ++ outs)

/-- An engine in which no operation fails. -/
def emOk : EngineModel :=
  { getErr := fun _ => none
    putErr := fun _ => none
    delErr := fun _ => none
    beginFails := false
    commitErr := none
    statErr := none }

/-- An engine in which get on key [1] fails with an engine-level error. -/
def emGetErr : EngineModel :=
  { getErr := fun k => if k = [1] then some "boom" else none
    putErr := fun _ => none
    delErr := fun _ => none
    beginFails := false
    commitErr := none
    statErr := none }

/-- 2^64, the modulus of usize arithmetic on the target. -/
def USIZE : Nat := 2 ^ 64

/-- A channel handle held in the pool: each worker mailbox is a bounded
channel of the recorded capacity, sharing the recorded environment handle. -/
structure Sender where
  capacity : Nat
  envHandle : Nat
deriving DecidableEq

/-- The pool manager (pool.rs lines 32-37): the channel handles and the
total/idle counters. -/
structure ThreadPool where
  senders : List Sender
  total : Nat
  idle : Nat
deriving DecidableEq

/-- ThreadPool::new (pool.rs lines 40-46). -/
def ThreadPool.new : ThreadPool :=
  { senders := [], total := 0, idle := 0 }

/-- ThreadPool::start_pool (pool.rs lines 47-255): push cap fresh worker
mailboxes, each bounded(1) and sharing env; then set idle and total to cap.
The list head models the Vec end, so push conses and pop takes the head. -/
def ThreadPool.start_pool (p : ThreadPool) (cap : Nat) (env : Nat) : ThreadPool :=
  { senders := List.replicate cap ⟨1, env⟩ ++ p.senders, total := cap, idle := cap }

/-- ThreadPool::pop (pool.rs lines 257-260): decrement idle unconditionally
(usize arithmetic, wrapping at zero), then pop the last sender if any. -/
def ThreadPool.pop (p : ThreadPool) : ThreadPool × Option Sender :=
  match p.senders with
  | [] => ({ senders := [], total := p.total, idle := (p.idle + (USIZE - 1)) % USIZE }, none)
  | s :: rest =>
    ({ senders := rest, total := p.total, idle := (p.idle + (USIZE - 1)) % USIZE }, some s)

/-- ThreadPool::push (pool.rs lines 262-265): increment idle, append the
sender. -/
def ThreadPool.push (p : ThreadPool) (s : Sender) : ThreadPool :=
  { senders := s :: p.senders, total := p.total, idle := (p.idle + 1) % USIZE }

/-- ThreadPool::total_threads (pool.rs lines 267-269). -/
def ThreadPool.total_threads (p : ThreadPool) : Nat := p.total

/-- ThreadPool::idle_threads (pool.rs lines 271-273). -/
def ThreadPool.idle_threads (p : ThreadPool) : Nat := p.idle

/-- A caller-side pool operation: acquire a handle, or release the i-th of
the handles the callers currently hold. -/
inductive PoolOp where
  | acquire
  | release (i : Nat)
deriving DecidableEq

/-- Execute one well-formed pool operation on the pool together with the
multiset of handles currently checked out: an acquire is taken only when a
handle is available (idle at least one), a release only of a held handle. -/
def execOp : ThreadPool × List Sender → PoolOp → Option (ThreadPool × List Sender)
  | (p, held), .acquire =>
    if 1 ≤ p.idle then
      match p.pop with
      | (p2, some s) => some (p2, s :: held)
      | (_, none) => none
    else none
  | (p, held), .release i =>
    match held[i]? with
    | some s => some (p.push s, held.eraseIdx i)
    | none => none

/-- Execute a sequence of well-formed pool operations. -/
def execTrace (st : ThreadPool × List Sender) : List PoolOp → Option (ThreadPool × List Sender)
  | [] => some st
  | op :: ops =>
    match execOp st op with
    | none => none
    | some st2 => execTrace st2 ops

/-- Pool accounting invariant for a pool of capacity N: the counters are
exact (idle plus checked-out handles equals N, and idle counts the stored
senders). -/
def PoolInv (N : Nat) (st : ThreadPool × List Sender) : Prop :=
  st.1.total = N ∧ st.1.idle + st.2.length = N ∧ st.1.senders.length = st.1.idle

/-- A one-worker pool with its single handle still idle. -/
def poolW : ThreadPool := { senders := [⟨1, 0⟩], total := 1, idle := 1 }

/-! Helper lemmas about the worker handlers. -/

lemma mapDel_of_get_none : ∀ (t : List (Bin × Bin)) (k : Bin),
    mapGet t k = none → mapDel t k = t := by
  intro t k h
  induction t with
  | nil => rfl
  | cons p rest ih =>
    obtain ⟨k0, v0⟩ := p
    by_cases hk : k = k0
    · simp [mapGet, hk] at h
    · simp only [mapGet, if_neg hk] at h
      simp [mapDel, hk, ih h]

lemma beginOrKeep_eq (em : EngineModel) (txn : Option (List (Bin × Bin))) (env : Env)
    (h : txn.isSome ∨ em.beginFails = false) :
    beginOrKeep em txn env = some (txn.getD env) := by
  cases txn with
  | some t => simp [beginOrKeep]
  | none =>
    rcases h with h | h
    · simp at h
    · simp [beginOrKeep, h]

lemma queryLoop_spec (em : EngineModel) (t : List (Bin × Bin)) :
    ∀ (keys acc : List TabKV),
      queryLoop em t acc keys =
        (acc ++ (keys.takeWhile (fun kv => (em.getErr kv.key).isNone)).map (queryResult t),
          firstQueryErr em keys) := by
  intro keys
  induction keys with
  | nil => intro acc; simp [queryLoop, firstQueryErr]
  | cons kv rest ih =>
    intro acc
    cases hge : em.getErr kv.key with
    | some e =>
      simp [queryLoop, txnGet, hge, firstQueryErr, List.takeWhile_cons]
    | none =>
      have hq : queryResult t kv = { kv with value := mapGet t kv.key } := rfl
      cases hmg : mapGet t kv.key with
      | some v =>
        simp [queryLoop, txnGet, hge, hmg, firstQueryErr, List.takeWhile_cons, ih,
          queryResult]
      | none =>
        simp [queryLoop, txnGet, hge, hmg, firstQueryErr, List.takeWhile_cons, ih,
          queryResult]

lemma takeWhile_of_firstQueryErr_none (em : EngineModel) :
    ∀ keys : List TabKV, firstQueryErr em keys = none →
      keys.takeWhile (fun kv => (em.getErr kv.key).isNone) = keys := by
  intro keys h
  induction keys with
  | nil => rfl
  | cons kv rest ih =>
    cases hge : em.getErr kv.key with
    | some e => simp [firstQueryErr, hge] at h
    | none =>
      simp only [firstQueryErr, hge] at h
      simp [List.takeWhile_cons, hge, ih h]

lemma modifyLoop_spec (em : EngineModel) :
    ∀ (keys : List TabKV) (t : List (Bin × Bin)),
      modifyLoop em t keys =
        (specApply t (keys.filter (fun kv => !(recordFails em kv))),
          keys.filterMap (errOf em)) := by
  intro keys
  induction keys with
  | nil => intro t; simp [modifyLoop, specApply]
  | cons kv rest ih =>
    intro t
    cases hv : kv.value with
    | some v =>
      cases hpe : em.putErr kv.key with
      | some e =>
        simp [modifyLoop, hv, txnPut, hpe, ih, recordFails, errOf,
          List.filter_cons, List.filterMap_cons]
      | none =>
        simp [modifyLoop, hv, txnPut, hpe, ih, recordFails, errOf,
          List.filter_cons, List.filterMap_cons, specApply]
    | none =>
      cases hde : em.delErr kv.key with
      | some e =>
        simp [modifyLoop, hv, txnDel, hde, ih, recordFails, errOf,
          List.filter_cons, List.filterMap_cons]
      | none =>
        by_cases hmg : (mapGet t kv.key).isSome
        · simp [modifyLoop, hv, txnDel, hde, hmg, ih, recordFails, errOf,
            List.filter_cons, List.filterMap_cons, specApply]
        · have hmn : mapGet t kv.key = none := by
            cases h : mapGet t kv.key with
            | none => rfl
            | some w => rw [h] at hmg; simp at hmg
          have hd : mapDel t kv.key = t := mapDel_of_get_none t kv.key hmn
          simp [modifyLoop, hv, txnDel, hde, hmg, ih, recordFails, errOf,
            List.filter_cons, List.filterMap_cons, specApply, hd]

lemma run_exhausted_item (em : EngineModel) (txn : Option (List (Bin × Bin)))
    (db : Option String) (env : Env) :
    ∀ n : Nat,
      run em ⟨txn, some [], db⟩ env (List.replicate n LmdbMessage.NextItem) =
        .ok ⟨txn, some [], db⟩ env (List.replicate n (CbCall.itemOk none)) := by
  intro n
  induction n with
  | zero => rfl
  | succ k ih => simp [List.replicate_succ, run, step, handleNextItem, ih]

lemma run_exhausted_key (em : EngineModel) (txn : Option (List (Bin × Bin)))
    (db : Option String) (env : Env) :
    ∀ n : Nat,
      run em ⟨txn, some [], db⟩ env (List.replicate n LmdbMessage.NextKey) =
        .ok ⟨txn, some [], db⟩ env (List.replicate n (CbCall.keyOk none)) := by
  intro n
  induction n with
  | zero => rfl
  | succ k ih => simp [List.replicate_succ, run, step, handleNextKey, ih]

/-! Helper lemmas about the pool accounting. -/

lemma USIZE_pos : 0 < USIZE := by decide

lemma pop_idle_eq (p : ThreadPool) (h1 : 1 ≤ p.idle) (h2 : p.idle < USIZE) :
    (p.idle + (USIZE - 1)) % USIZE = p.idle - 1 := by
  have hU : 0 < USIZE := USIZE_pos
  have he : p.idle + (USIZE - 1) = (p.idle - 1) + USIZE := by omega
  rw [he, Nat.add_mod_right, Nat.mod_eq_of_lt]
  omega

lemma senders_cons_of_idle (p : ThreadPool) (hLen : p.senders.length = p.idle)
    (h1 : 1 ≤ p.idle) : ∃ s rest, p.senders = s :: rest := by
  cases hps : p.senders with
  | nil => rw [hps] at hLen; simp at hLen; omega
  | cons a l => exact ⟨a, l, rfl⟩

lemma execOp_acquire_eq (p : ThreadPool) (held : List Sender) (s : Sender)
    (rest : List Sender) (hs : p.senders = s :: rest) (h1 : 1 ≤ p.idle)
    (h2 : p.idle < USIZE) :
    execOp (p, held) PoolOp.acquire =
      some ({ senders := rest, total := p.total, idle := p.idle - 1 }, s :: held) := by
  simp [execOp, h1, ThreadPool.pop, hs, pop_idle_eq p h1 h2]

lemma execOp_inv (N : Nat) (hN : N < USIZE) (st st2 : ThreadPool × List Sender)
    (op : PoolOp) (hInv : PoolInv N st) (h : execOp st op = some st2) :
    PoolInv N st2 := by
  obtain ⟨p, held⟩ := st
  obtain ⟨hTot, hCnt, hLen⟩ := hInv
  dsimp only at hTot hCnt hLen
  cases op with
  | acquire =>
    by_cases h1 : 1 ≤ p.idle
    · have h2 : p.idle < USIZE := by omega
      obtain ⟨s, rest, hs⟩ := senders_cons_of_idle p hLen h1
      rw [execOp_acquire_eq p held s rest hs h1 h2] at h
      cases h
      have hrl : rest.length + 1 = p.idle := by
        have := hLen
        rw [hs] at this
        simpa using this
      refine ⟨hTot, ?_, ?_⟩
      · dsimp only [PoolInv]
        simp
        omega
      · dsimp only [PoolInv]
        omega
    · simp [execOp, h1] at h
  | release i =>
    cases hg : held[i]? with
    | none => simp [execOp, hg] at h
    | some s =>
      simp only [execOp, hg] at h
      cases h
      have hi : i < held.length := by
        by_contra hcon
        rw [List.getElem?_eq_none (by omega)] at hg
        cases hg
      have hheld1 : 1 ≤ held.length := by omega
      have hidle : p.idle + 1 < USIZE := by omega
      have hmod : (p.idle + 1) % USIZE = p.idle + 1 := Nat.mod_eq_of_lt hidle
      have hel : (held.eraseIdx i).length = held.length - 1 := by
        rw [List.length_eraseIdx]
        simp [hi]
      refine ⟨hTot, ?_, ?_⟩
      · dsimp only [ThreadPool.push]
        rw [hmod, hel]
        omega
      · dsimp only [ThreadPool.push]
        rw [hmod]
        simp [hLen]

lemma execTrace_inv (N : Nat) (hN : N < USIZE) :
    ∀ (ops : List PoolOp) (st st2 : ThreadPool × List Sender),
      PoolInv N st → execTrace st ops = some st2 → PoolInv N st2 := by
  intro ops
  induction ops with
  | nil =>
    intro st st2 hInv h
    simp [execTrace] at h
    rwa [← h]
  | cons op rest ih =>
    intro st st2 hInv h
    cases hop : execOp st op with
    | none => simp [execTrace, hop] at h
    | some st1 =>
      simp only [execTrace, hop] at h
      exact ih st1 st2 (execOp_inv N hN st st1 op hInv hop) h

lemma execTrace_acquires (N : Nat) (hN : N < USIZE) :
    ∀ (K : Nat) (p : ThreadPool) (held : List Sender),
      PoolInv N (p, held) → K ≤ p.idle →
      ∃ p2 held2,
        execTrace (p, held) (List.replicate K PoolOp.acquire) = some (p2, held2) ∧
        p2.idle = p.idle - K ∧ held2.length = held.length + K := by
  intro K
  induction K with
  | zero =>
    intro p held hInv hK
    exact ⟨p, held, rfl, by omega, by omega⟩
  | succ k ih =>
    intro p held hInv hK
    obtain ⟨hTot, hCnt, hLen⟩ := hInv
    dsimp only at hTot hCnt hLen
    have h1 : 1 ≤ p.idle := by omega
    have h2 : p.idle < USIZE := by omega
    obtain ⟨s, rest, hs⟩ := senders_cons_of_idle p hLen h1
    have hstep := execOp_acquire_eq p held s rest hs h1 h2
    have hInv2 : PoolInv N ({ senders := rest, total := p.total, idle := p.idle - 1 }, s :: held) :=
      execOp_inv N hN (p, held) _ PoolOp.acquire ⟨hTot, hCnt, hLen⟩ hstep
    obtain ⟨p2, held2, hrun, hidle, hlen⟩ :=
      ih { senders := rest, total := p.total, idle := p.idle - 1 } (s :: held) hInv2 (by simp; omega)
    refine ⟨p2, held2, ?_, ?_, ?_⟩
    · simp only [List.replicate_succ, execTrace, hstep]
      exact hrun
    · simp at hidle; omega
    · simp at hlen; omega

lemma errOf_eq_none_of_not_fails (em : EngineModel) (kv : TabKV)
    (h : recordFails em kv = false) : errOf em kv = none := by
  cases hv : kv.value with
  | some v =>
    cases hpe : em.putErr kv.key with
    | some e => simp [recordFails, hv, hpe] at h
    | none => simp [errOf, hv, hpe]
  | none =>
    cases hde : em.delErr kv.key with
    | some e => simp [recordFails, hv, hde] at h
    | none => simp [errOf, hv, hde]

/-! Claim theorems. -/

/-- Claim C1 (corrected): on a Query batch in which some key hits an
engine-level error other than not-found, the result callback is NOT invoked
exactly once with only the error: the worker invokes it with the error and
then invokes it a second time with the partial results accumulated before
the error. Here key [0] resolves to a record and key [1] raises an engine
error, and the callback fires twice, the second time with the partial list. -/
theorem C1_counterexample :
    step emGetErr ⟨none, none, some "t"⟩ [([0], [7])]
      (.Query [⟨"w", "t", [0], 0, none⟩, ⟨"w", "t", [1], 0, none⟩]) =
      .ok ⟨none, none, some "t"⟩ [([0], [7])]
        [CbCall.queryErr "lmdb internal error: boom",
         CbCall.queryOk [⟨"w", "t", [0], 0, some [7]⟩]] := by rfl

/-- Claim C1 (amended): with a table handle installed and a transaction
available, a Query whose keys all avoid engine-level errors invokes the
callback exactly once, with one record per key carrying the value on hit
and no value on miss (not-found is never an error); a Query hitting an
engine-level error invokes the callback twice: first with the formatted
error (processing of the remaining keys stops), then with the partial
results accumulated before the error — partial results are delivered, not
discarded. In both cases the transaction slot is emptied. -/
theorem C1_query (em : EngineModel) (s : WorkerState) (env : Env) (keys : List TabKV)
    (d : String) (hdb : s.db = some d)
    (ht : s.txn.isSome ∨ em.beginFails = false) :
    (firstQueryErr em keys = none →
      step em s env (.Query keys) =
        .ok { s with txn := none } env
          [CbCall.queryOk (keys.map (queryResult (s.txn.getD env)))]) ∧
    (∀ e, firstQueryErr em keys = some e →
      step em s env (.Query keys) =
        .ok { s with txn := none } env
          [CbCall.queryErr e,
           CbCall.queryOk ((keys.takeWhile (fun kv => (em.getErr kv.key).isNone)).map
             (queryResult (s.txn.getD env)))]) := by
  have hb := beginOrKeep_eq em s.txn env ht
  constructor
  · intro hfe
    have htw := takeWhile_of_firstQueryErr_none em keys hfe
    simp [step, handleQuery, hb, hdb, queryLoop_spec, hfe, htw]
  · intro e hfe
    simp [step, handleQuery, hb, hdb, queryLoop_spec, hfe]

/-- Witness for C1_query: a one-key Query on an empty store returns the
record with no value through a single callback invocation. -/
theorem C1_witness :
    step emOk ⟨none, none, some "t"⟩ [] (.Query [⟨"w", "t", [5], 0, none⟩]) =
      .ok ⟨none, none, some "t"⟩ [] [CbCall.queryOk [⟨"w", "t", [5], 0, none⟩]] :=
  (C1_query emOk ⟨none, none, some "t"⟩ [] [⟨"w", "t", [5], 0, none⟩] "t" rfl
    (Or.inr rfl)).1 rfl

/-- Claim C2 (code bug): the transaction slot does NOT persist across Query.
The Query arm takes the transaction out of the slot and drops it. On the
trace CreateDb; Modify(write [1] to [2]); Query([1]); Commit the write is
observed by the Query (read-your-own-writes holds on that one query), but
afterwards the transaction slot is already empty with no Commit or Rollback
processed (first conjunct), so the final Commit is a trivial no-op and the
committed store stays empty — the write is silently lost (second conjunct). -/
theorem C2_code_bug :
    run emOk WorkerState.init [] [.CreateDb "t", .Modify [⟨"w", "t", [1], 0, some [2]⟩],
        .Query [⟨"w", "t", [1], 0, none⟩]] =
      .ok ⟨none, none, some "t"⟩ []
        [CbCall.ack, CbCall.txOk, CbCall.queryOk [⟨"w", "t", [1], 0, some [2]⟩]] ∧
    run emOk WorkerState.init [] [.CreateDb "t", .Modify [⟨"w", "t", [1], 0, some [2]⟩],
        .Query [⟨"w", "t", [1], 0, none⟩], .Commit] =
      .ok ⟨none, none, some "t"⟩ []
        [CbCall.ack, CbCall.txOk, CbCall.queryOk [⟨"w", "t", [1], 0, some [2]⟩],
         CbCall.txOk] :=
  ⟨rfl, rfl⟩

/-- Claim C3 (corrected): the create-iterator guard is NOT on the iterator.
On the trace CreateDb; Modify([]) (which lazily opens a transaction);
CreateItemIter, no iterator exists when CreateItemIter arrives, yet none is
created (final iterator slot is none) — the message only acknowledges,
because a transaction is already open. -/
theorem C3_counterexample :
    run emOk WorkerState.init [] [.CreateDb "t", .Modify [], .CreateItemIter false none] =
      .ok ⟨some [], none, some "t"⟩ [] [CbCall.ack, CbCall.txOk, CbCall.ack] := by rfl

/-- Claim C3 (amended): CreateItemIter and CreateKeyIter create and position
a new iterator exactly when no TRANSACTION is open (replacing any existing
iterator), and when a transaction is already open they are no-ops that still
acknowledge, even if no iterator exists. -/
theorem C3_create_iter (em : EngineModel) (s : WorkerState) (env : Env)
    (d : Bool) (k : Option Bin) :
    (∀ t, s.txn = some t →
      step em s env (.CreateItemIter d k) = .ok s env [CbCall.ack] ∧
      step em s env (.CreateKeyIter d k) = .ok s env [CbCall.ack]) ∧
    (∀ name, s.txn = none → em.beginFails = false → s.db = some name →
      step em s env (.CreateItemIter d k) =
        .ok { s with txn := some env, iter := some (mkIter env d k) } env [CbCall.ack] ∧
      step em s env (.CreateKeyIter d k) =
        .ok { s with txn := some env, iter := some (mkIter env d k) } env [CbCall.ack]) := by
  constructor
  · intro t ht
    constructor <;> simp [step, handleCreateIter, ht]
  · intro name ht hbf hdb
    constructor <;> simp [step, handleCreateIter, ht, hbf, hdb, mkIter]

/-- Witness for C3_create_iter: with no transaction open, CreateItemIter
installs the iterator positioned on the single committed entry. -/
theorem C3_witness :
    step emOk ⟨none, none, some "t"⟩ [([0], [7])] (.CreateItemIter false none) =
      .ok ⟨some [([0], [7])], some [([0], [7])], some "t"⟩ [([0], [7])] [CbCall.ack] :=
  ((C3_create_iter emOk ⟨none, none, some "t"⟩ [([0], [7])] false none).2 "t"
    rfl rfl rfl).1

/-- Claim C4 (corrected): idle is a wrapping usize counter, so a failed
acquire on an exhausted pool drives it to 2^64 - 1, violating idle less
than or equal to total: start a pool of capacity 1, acquire twice. -/
theorem C4_counterexample :
    ¬ (((ThreadPool.new.start_pool 1 0).pop.1.pop.1).idle ≤
        ((ThreadPool.new.start_pool 1 0).pop.1.pop.1).total) := by decide

/-- Claim C4 (amended): for every sequence of acquire/release operations in
which acquire is only invoked while a handle is available (idle at least 1)
and only previously-acquired outstanding handles are released, the invariant
idle less than or equal to total holds; the accounting is exact: after K
successful acquires without release idle equals N - K, and whenever all
acquired handles have been returned idle equals N equals total. -/
theorem C4_pool_accounting (N envH : Nat) (hN : N < USIZE) :
    (∀ (ops : List PoolOp) (p : ThreadPool) (held : List Sender),
        execTrace (ThreadPool.new.start_pool N envH, []) ops = some (p, held) →
        p.idle ≤ p.total) ∧
    (∀ K, K ≤ N →
        ∃ p held,
          execTrace (ThreadPool.new.start_pool N envH, []) (List.replicate K PoolOp.acquire) =
            some (p, held) ∧ p.idle = N - K ∧ held.length = K) ∧
    (∀ (ops : List PoolOp) (p : ThreadPool),
        execTrace (ThreadPool.new.start_pool N envH, []) ops = some (p, []) →
        p.idle = N ∧ p.total = N) := by
  have hInv0 : PoolInv N (ThreadPool.new.start_pool N envH, []) := by
    refine ⟨rfl, by simp [ThreadPool.start_pool], ?_⟩
    simp [ThreadPool.start_pool, ThreadPool.new]
  refine ⟨?_, ?_, ?_⟩
  · intro ops p held h
    obtain ⟨hTot, hCnt, hLen⟩ := execTrace_inv N hN ops _ _ hInv0 h
    dsimp only at hTot hCnt hLen
    omega
  · intro K hK
    obtain ⟨p, held, hrun, hidle, hlen⟩ :=
      execTrace_acquires N hN K (ThreadPool.new.start_pool N envH) [] hInv0 hK
    exact ⟨p, held, hrun, hidle, by simpa using hlen⟩
  · intro ops p h
    obtain ⟨hTot, hCnt, hLen⟩ := execTrace_inv N hN ops _ _ hInv0 h
    dsimp only at hTot hCnt hLen
    simp at hCnt
    exact ⟨hCnt, hTot⟩

/-- Witness for C4_pool_accounting: a freshly started pool of capacity 1
satisfies the invariant after the empty operation sequence. -/
theorem C4_witness :
    (ThreadPool.new.start_pool 1 0).idle ≤ (ThreadPool.new.start_pool 1 0).total :=
  (C4_pool_accounting 1 0 (by decide)).1 [] (ThreadPool.new.start_pool 1 0) [] rfl

/-- Claim C5 (corrected): acquire on an empty pool does return none without
blocking, but it does NOT leave the idle counter intact: the unconditional
usize decrement runs first, wrapping idle from 0 to 2^64 - 1 (the
two's-complement image of -1; in a debug build this underflow panics). -/
theorem C5_counterexample :
    (ThreadPool.new.pop).2 = none ∧
    (ThreadPool.new.pop).1.idle = USIZE - 1 ∧ USIZE - 1 ≠ 0 :=
  ⟨rfl, rfl, by decide⟩

/-- Claim C5 (amended): pop never blocks; it always decrements idle modulo
2^64 (underflowing when idle is 0), returns none when no handle is stored,
and removes and returns the last stored handle otherwise; when 1 <= idle <
2^64 the decrement is the exact idle - 1. -/
theorem C5_pop (p : ThreadPool) :
    (p.senders = [] →
      p.pop = ({ senders := [], total := p.total,
                 idle := (p.idle + (USIZE - 1)) % USIZE }, none)) ∧
    (∀ s rest, p.senders = s :: rest →
      p.pop = ({ senders := rest, total := p.total,
                 idle := (p.idle + (USIZE - 1)) % USIZE }, some s)) ∧
    (1 ≤ p.idle → p.idle < USIZE → (p.idle + (USIZE - 1)) % USIZE = p.idle - 1) := by
  refine ⟨?_, ?_, pop_idle_eq p⟩
  · intro h
    simp [ThreadPool.pop, h]
  · intro s rest h
    simp [ThreadPool.pop, h]

/-- Witness for C5_pop: popping a one-handle pool returns the handle and
decrements idle to 0. -/
theorem C5_witness :
    ThreadPool.pop poolW = ({ senders := [], total := 1, idle := 0 }, some ⟨1, 0⟩) :=
  (C5_pop poolW).2.1 ⟨1, 0⟩ [] rfl

/-- Claim C6 (confirmed): a Modify batch, with a table handle installed and
a transaction available (opened lazily if none), applies exactly the
non-failing records to the kept transaction view (upsert for records with a
value, delete for records without one — deleting an absent key succeeds
silently), emits one formatted error callback per engine-failing record
while continuing with the rest of the batch, and finally emits the success
callback; when no record fails the callback fires exactly once, with
success. -/
theorem C6_modify (em : EngineModel) (s : WorkerState) (env : Env) (keys : List TabKV)
    (d : String) (hdb : s.db = some d)
    (ht : s.txn.isSome ∨ em.beginFails = false) :
    step em s env (.Modify keys) =
      .ok { s with txn := some (specApply (s.txn.getD env)
              (keys.filter (fun kv => !(recordFails em kv)))) } env
        ((keys.filterMap (errOf em)) ++ [CbCall.txOk]) ∧
    ((∀ kv ∈ keys, recordFails em kv = false) → keys.filterMap (errOf em) = []) ∧
    (∀ kv : TabKV, kv.value = none → em.delErr kv.key = none → errOf em kv = none) := by
  have hb := beginOrKeep_eq em s.txn env ht
  refine ⟨?_, ?_, ?_⟩
  · simp [step, handleModify, hb, hdb, modifyLoop_spec]
  · intro hall
    rw [List.filterMap_eq_nil_iff]
    intro kv hkv
    exact errOf_eq_none_of_not_fails em kv (hall kv hkv)
  · intro kv hv hde
    simp [errOf, hv, hde]

/-- Witness for C6_modify: deleting an absent key on an empty store
succeeds with a single success callback and leaves the transaction view
empty. -/
theorem C6_witness :
    step emOk ⟨none, none, some "t"⟩ [] (.Modify [⟨"w", "t", [3], 0, none⟩]) =
      .ok ⟨some [], none, some "t"⟩ [] [CbCall.txOk] :=
  (C6_modify emOk ⟨none, none, some "t"⟩ [] [⟨"w", "t", [3], 0, none⟩] "t" rfl
    (Or.inr rfl)).1

/-- Claim C7 (corrected): a Query with an EMPTY key batch sent before any
CreateDb does not panic: the worker takes the (lazily opened) transaction,
skips the loop, and reports success through the callback. -/
theorem C7_counterexample :
    step emOk ⟨none, none, none⟩ [] (.Query []) =
      .ok ⟨none, none, none⟩ [] [CbCall.queryOk []] := by rfl

/-- Claim C7 (amended): before any CreateDb has installed a table handle the
worker panics via unwrap on a None option for any Query or Modify with a
NONEMPTY batch, and for CreateItemIter/CreateKeyIter when no transaction is
open; when the lazy transaction open fails the worker panics on all four
messages regardless of payload; but an empty-batch Query or Modify does not
panic (it reports success through the callback), and an iterator create
with a transaction already open merely acknowledges. In no panicking case
is an error reported through the result channel. -/
theorem C7_panics (em : EngineModel) (s : WorkerState) (env : Env) :
    (s.db = none → ∀ (kv : TabKV) (keys : List TabKV),
      step em s env (.Query (kv :: keys)) = .panicked ∧
      step em s env (.Modify (kv :: keys)) = .panicked) ∧
    (s.db = none → s.txn = none → ∀ (d : Bool) (k : Option Bin),
      step em s env (.CreateItemIter d k) = .panicked ∧
      step em s env (.CreateKeyIter d k) = .panicked) ∧
    (s.txn = none → em.beginFails = true →
      ∀ (keys : List TabKV) (d : Bool) (k : Option Bin),
      step em s env (.Query keys) = .panicked ∧
      step em s env (.Modify keys) = .panicked ∧
      step em s env (.CreateItemIter d k) = .panicked ∧
      step em s env (.CreateKeyIter d k) = .panicked) ∧
    ((s.txn.isSome ∨ em.beginFails = false) →
      step em s env (.Query []) = .ok { s with txn := none } env [CbCall.queryOk []] ∧
      step em s env (.Modify []) =
        .ok { s with txn := some (s.txn.getD env) } env [CbCall.txOk]) := by
  refine ⟨?_, ?_, ?_, ?_⟩
  · intro hdb kv keys
    cases hbk : beginOrKeep em s.txn env <;>
      simp [step, handleQuery, handleModify, hbk, hdb]
  · intro hdb htxn d k
    cases hbf : em.beginFails <;>
      simp [step, handleCreateIter, htxn, hdb, hbf]
  · intro htxn hbf keys d k
    simp [step, handleQuery, handleModify, handleCreateIter, beginOrKeep, htxn, hbf]
  · intro ht
    have hb := beginOrKeep_eq em s.txn env ht
    cases hdb : s.db <;>
      simp [step, handleQuery, handleModify, hb, hdb, queryLoop, modifyLoop]

/-- Witness for C7_panics: CreateItemIter before any CreateDb, with no
transaction open, panics the worker thread. -/
theorem C7_witness :
    step emOk ⟨none, none, none⟩ [] (.CreateItemIter false none) = StepResult.panicked :=
  ((C7_panics emOk ⟨none, none, none⟩ []).2.1 rfl rfl false none).1

/-- Claim C8 (confirmed): Commit with an open transaction commits it (its
view becomes the committed store) and clears the slot, reporting success,
or reports the formatted commit failure with the slot cleared; Commit with
no open transaction reports success trivially. Rollback with an open
transaction discards it (committed store unchanged) and clears the slot,
reporting success; with none open it reports success trivially. -/
theorem C8_commit_rollback (em : EngineModel) (s : WorkerState) (env : Env) :
    (∀ t, s.txn = some t → em.commitErr = none →
      step em s env .Commit = .ok { s with txn := none } t [CbCall.txOk]) ∧
    (∀ t e, s.txn = some t → em.commitErr = some e →
      step em s env .Commit =
        .ok { s with txn := none } env [CbCall.txErr ("commit failed with error: " ++ e)]) ∧
    (s.txn = none → step em s env .Commit = .ok s env [CbCall.txOk]) ∧
    (∀ t, s.txn = some t →
      step em s env .Rollback = .ok { s with txn := none } env [CbCall.txOk]) ∧
    (s.txn = none → step em s env .Rollback = .ok s env [CbCall.txOk]) := by
  refine ⟨?_, ?_, ?_, ?_, ?_⟩
  · intro t ht hc
    simp [step, handleCommit, ht, hc]
  · intro t e ht hc
    simp [step, handleCommit, ht, hc]
  · intro ht
    simp [step, handleCommit, ht]
  · intro t ht
    simp [step, handleRollback, ht]
  · intro ht
    simp [step, handleRollback, ht]

/-- Witness for C8_commit_rollback: committing a transaction holding one
binding installs that binding as the committed store and clears the slot. -/
theorem C8_witness :
    step emOk ⟨some [([1], [2])], none, none⟩ [] .Commit =
      .ok ⟨none, none, none⟩ [([1], [2])] [CbCall.txOk] :=
  (C8_commit_rollback emOk ⟨some [([1], [2])], none, none⟩ []).1 [([1], [2])] rfl rfl

/-- Claim C9 (confirmed): NextItem/NextKey with no iterator ever created
reports the "Iterator not initialized" error; with an active iterator they
yield the next entry (pair or key); an exhausted iterator yields the
end-of-sequence signal (a result carrying no entry) on this and on every
further advance, never an error. -/
theorem C9_next (em : EngineModel) (s : WorkerState) (env : Env) :
    (s.iter = none →
      step em s env .NextItem = .ok s env [CbCall.itemErr "Iterator not initialized"] ∧
      step em s env .NextKey = .ok s env [CbCall.keyErr "Iterator not initialized"]) ∧
    (∀ p rest, s.iter = some (p :: rest) →
      step em s env .NextItem = .ok { s with iter := some rest } env [CbCall.itemOk (some p)] ∧
      step em s env .NextKey = .ok { s with iter := some rest } env [CbCall.keyOk (some p.1)]) ∧
    (s.iter = some [] → ∀ n : Nat,
      run em s env (List.replicate n .NextItem) =
        .ok s env (List.replicate n (CbCall.itemOk none)) ∧
      run em s env (List.replicate n .NextKey) =
        .ok s env (List.replicate n (CbCall.keyOk none))) := by
  refine ⟨?_, ?_, ?_⟩
  · intro hit
    constructor <;> simp [step, handleNextItem, handleNextKey, hit]
  · intro p rest hit
    constructor <;> simp [step, handleNextItem, handleNextKey, hit]
  · intro hit n
    obtain ⟨txn, iter, db⟩ := s
    dsimp only at hit
    subst hit
    exact ⟨run_exhausted_item em txn db env n, run_exhausted_key em txn db env n⟩

/-- Witness for C9_next: advancing a one-entry iterator yields the entry
and leaves the exhausted iterator in place. -/
theorem C9_witness :
    step emOk ⟨none, some [([1], [2])], none⟩ [] .NextItem =
      .ok ⟨none, some [], none⟩ [] [CbCall.itemOk (some ([1], [2]))] :=
  ((C9_next emOk ⟨none, some [([1], [2])], none⟩ []).2.1 ([1], [2]) [] rfl).1

/-- Claim C10 (confirmed): new() produces the empty pool (no worker
channels, total = idle = 0); start_pool(cap, env) installs exactly cap
worker mailboxes, each of bound exactly 1 and each sharing the given store
environment handle, and sets total = idle = cap. -/
theorem C10_pool_init :
    ThreadPool.new = { senders := [], total := 0, idle := 0 } ∧
    ∀ (cap envH : Nat),
      (ThreadPool.new.start_pool cap envH).senders.length = cap ∧
      (∀ sd ∈ (ThreadPool.new.start_pool cap envH).senders,
        sd.capacity = 1 ∧ sd.envHandle = envH) ∧
      (ThreadPool.new.start_pool cap envH).total = cap ∧
      (ThreadPool.new.start_pool cap envH).idle = cap := by
  refine ⟨rfl, ?_⟩
  intro cap envH
  refine ⟨?_, ?_, rfl, rfl⟩
  · simp [ThreadPool.start_pool, ThreadPool.new]
  · intro sd hsd
    simp [ThreadPool.start_pool, ThreadPool.new, List.mem_replicate] at hsd
    rw [hsd.2]
    exact ⟨rfl, rfl⟩

/-- Witness for C10_pool_init: a pool started with capacity 2 holds exactly
2 worker mailboxes. -/
theorem C10_witness :
    (ThreadPool.new.start_pool 2 5).senders.length = 2 :=
  (C10_pool_init.2 2 5).1

end PiStore
